import Mathlib

/-!
Verification of the run-down protection crate (src/flags.rs, src/guard.rs,
src/rundown_ref.rs).

The state of a `RundownRef` is a single `u64` word that packs an active
reference count together with the `RUNDOWN_IN_PROGRESS` flag nibble
`0xF000_0000_0000_0000` (top four bits), plus a lazily created manual-reset
event.  `u64` values are modelled as `Nat` carrying explicit `< 2 ^ 64`
bounds.  Rust operations that abort (a failed `checked_add`/`checked_sub`,
an `expect` on a missing event, the explicit re-init contract check) are
modelled with `Option`, `none` standing for the fatal fault; for
`wait_for_rundown`, `none` also covers the case in which the call blocks
and, in the modelled thread interleaving, is never woken.
-/

namespace Rundown

/-- The `RundownFlags` newtype over the raw `u64` payload (src/flags.rs,
duplicated inline in src/rundown_ref.rs). -/
structure RundownFlags where
  bits : Nat
deriving DecidableEq

namespace RundownFlags

/-- The flag constant `RUNDOWN_IN_PROGRESS = 0xF000_0000_0000_0000`. -/
def RUNDOWN_IN_PROGRESS : RundownFlags := ⟨0xF000000000000000⟩

/-- bitflags `contains`: every bit of `other` is present in `self`. -/
def contains (self other : RundownFlags) : Bool :=
  self.bits &&& other.bits == other.bits

/-- Returns true if the run-down in progress flag is set. -/
def is_rundown_in_progress (self : RundownFlags) : Bool :=
  self.contains RUNDOWN_IN_PROGRESS

/-- Returns true if the run-down in progress flag is not set. -/
def is_pre_rundown (self : RundownFlags) : Bool :=
  ! self.contains RUNDOWN_IN_PROGRESS

/-- Returns the raw bits with the run-down in progress flag set
in the upper bits. -/
def set_rundown_in_progress (self : RundownFlags) : Nat :=
  self.bits ||| RUNDOWN_IN_PROGRESS.bits

/-- Rust `!x` on a `u64`: bitwise complement within 64 bits. -/
def not64 (x : Nat) : Nat := x ^^^ (2 ^ 64 - 1)

/-- Returns just the reference count encoded in the flags:
`self.bits & !RUNDOWN_IN_PROGRESS.bits`. -/
def get_ref (self : RundownFlags) : Nat :=
  self.bits &&& not64 RUNDOWN_IN_PROGRESS.bits

/-- Returns true if the reference count is zero. -/
def is_ref_zero (self : RundownFlags) : Bool :=
  self.get_ref == 0

/-- Returns true if the reference count is non zero. -/
def is_ref_active (self : RundownFlags) : Bool :=
  decide (0 < self.get_ref)

/-- Incremented raw bits.  src/flags.rs uses `checked_add(1)` and aborts on
`None`; the inline copy in src/rundown_ref.rs writes `self.bits + 1`, whose
Rust semantics fault at exactly the same input (`u64::MAX`).  `none` is the
fatal overflow fault.  Meaningful on the `u64` domain `bits < 2 ^ 64`. -/
def add_ref (self : RundownFlags) : Option Nat :=
  if self.bits + 1 < 2 ^ 64 then some (self.bits + 1) else none

/-- Decremented raw bits.  src/flags.rs uses `checked_sub(1)` and aborts on
`None`; the inline copy in src/rundown_ref.rs writes `self.bits - 1`, whose
Rust semantics fault at exactly the same input (`0`).  `none` is the fatal
underflow fault. -/
def dec_ref (self : RundownFlags) : Option Nat :=
  if self.bits = 0 then none else some (self.bits - 1)

end RundownFlags

/-- Utility function converting raw bits to `RundownFlags`
(`from_bits_unchecked`, which preserves every bit). -/
def to_flags (bits : Nat) : RundownFlags := ⟨bits⟩

/-- The single error of the crate. -/
inductive RundownError where
  | RundownInProgress
deriving DecidableEq

deriving instance DecidableEq for Except

/-- The two states of the `rsevents::ManualResetEvent`. -/
inductive EventState where
  | Unset
  | Set
deriving DecidableEq

/-- The scoped token returned by a successful acquisition.  It borrows its
`RundownRef`; in this embedding the reference is the explicitly threaded
state, and dropping the guard is the (sole) caller of `release`. -/
structure RundownGuard where
  mk ::
deriving DecidableEq

/-- `RundownRef`: the packed atomic word plus the lazily initialized event
(`Lazy<ManualResetEvent>`); `none` means the event was never created. -/
structure RundownRef where
  ref_count : Nat
  event : Option EventState
deriving DecidableEq

/-- `RundownRef::new()` / `Default`: zero count, no flags, no event. -/
def RundownRef.new : RundownRef := ⟨0, none⟩

namespace RundownRef

/-- Atomically load the current flags. -/
def load_flags (r : RundownRef) : RundownFlags :=
  to_flags r.ref_count

/-- `try_acquire_internal`, in the contention-free (single atomic observer)
denotation: the loop's compare-exchange succeeds against the word it just
loaded.  On the error path the state word is returned unchanged. -/
def try_acquire_internal (r : RundownRef) :
    Option (RundownRef × Except RundownError Unit) :=
  if (r.load_flags).is_rundown_in_progress then
    some (r, Except.error RundownError.RundownInProgress)
  else
    match (r.load_flags).add_ref with
    | none => none
    | some new_bits_with_ref => some (⟨new_bits_with_ref, r.event⟩, Except.ok ())

/-- `try_acquire`: wraps `try_acquire_internal`, yielding a guard on success. -/
def try_acquire (r : RundownRef) :
    Option (RundownRef × Except RundownError RundownGuard) :=
  match r.try_acquire_internal with
  | none => none
  | some (r2, Except.ok ()) => some (r2, Except.ok RundownGuard.mk)
  | some (r2, Except.error er) => some (r2, Except.error er)

/-- `release`: decrement the word; if the post-decrement count is zero while
run-down is in progress, fetch the event (`expect` faults when it is absent)
and set it.  The decrement and the conditional signal are one step here:
only the final releaser signals, and by the crate's single-owner contract
`re_init` cannot run before that signal is observed. -/
def release (r : RundownRef) : Option RundownRef :=
  match (r.load_flags).dec_ref with
  | none => none
  | some bits_with_decrement =>
    if (to_flags bits_with_decrement).is_ref_zero
        && (to_flags bits_with_decrement).is_rundown_in_progress then
      match r.event with
      | none => none
      | some _ => some ⟨bits_with_decrement, some EventState.Set⟩
    else
      some ⟨bits_with_decrement, r.event⟩

/-- One committing iteration of the `wait_for_rundown` loop: if the observed
count is non-zero, `get_or_create` the event (keeping it when present),
then install the word with the run-down flag forced on. -/
def rundown_commit (r : RundownRef) : RundownRef :=
  { ref_count := (r.load_flags).set_rundown_in_progress,
    event :=
      if (r.load_flags).is_ref_zero then r.event
      else some (r.event.getD EventState.Unset) }

/-- `wait_for_rundown`, contention-free: commit the flag, then if the count
at the committed word is non-zero wait on the event.  `some` is a normal
return; `none` means the call blocks on an unset event (or the `expect`
fault on a missing one). -/
def wait_for_rundown (r : RundownRef) : Option RundownRef :=
  if ((r.rundown_commit).load_flags).is_ref_zero then
    some r.rundown_commit
  else
    match (r.rundown_commit).event with
    | some EventState.Set => some r.rundown_commit
    | some EventState.Unset => none
    | none => none

/-- `re_init`: aborts unless the object is fully run down; otherwise resets
the event when it exists and stores the zero word. -/
def re_init (r : RundownRef) : Option RundownRef :=
  if ! (r.load_flags).is_rundown_in_progress || ! (r.load_flags).is_ref_zero then
    none
  else
    some ⟨0, r.event.map (fun _ => EventState.Unset)⟩

end RundownRef

/-! ### Arithmetic characterization of the bit-mask operations

The flag nibble is the top four bits of the word, `15 * 2 ^ 60 = 0xF000…`,
and the count field is the low 60 bits. -/

theorem and_mask_high (b : Nat) (hb : b < 2 ^ 64) :
    b &&& 15 * 2 ^ 60 = 2 ^ 60 * (b / 2 ^ 60) := by
  apply Nat.eq_of_testBit_eq
  intro j
  rw [Nat.testBit_and]
  rcases Nat.lt_or_ge j 60 with hj | hj
  · have h1 : Nat.testBit (15 * 2 ^ 60) j = false := by
      rw [Nat.mul_comm, Nat.testBit_mul_pow_two, decide_eq_false (by omega),
        Bool.false_and]
    have h2 : Nat.testBit (2 ^ 60 * (b / 2 ^ 60)) j = false := by
      rw [Nat.testBit_mul_pow_two, decide_eq_false (by omega), Bool.false_and]
    rw [h1, h2, Bool.and_false]
  · have hmask : Nat.testBit (15 * 2 ^ 60) j = decide (j - 60 < 4) := by
      rw [Nat.mul_comm, Nat.testBit_mul_pow_two,
        show (15 : Nat) = 2 ^ 4 - 1 by norm_num, Nat.testBit_two_pow_sub_one,
        decide_eq_true (by omega : j ≥ 60), Bool.true_and]
    have hdiv : Nat.testBit (2 ^ 60 * (b / 2 ^ 60)) j = Nat.testBit b j := by
      rw [Nat.testBit_mul_pow_two, ← Nat.shiftRight_eq_div_pow,
        Nat.testBit_shiftRight, Nat.add_sub_cancel' hj,
        decide_eq_true (by omega : j ≥ 60), Bool.true_and]
    rw [hmask, hdiv]
    rcases Nat.lt_or_ge j 64 with hj64 | hj64
    · rw [decide_eq_true (by omega : j - 60 < 4), Bool.and_true]
    · have hbj : Nat.testBit b j = false :=
        Nat.testBit_lt_two_pow (Nat.lt_of_lt_of_le hb
          (Nat.pow_le_pow_right (by norm_num) hj64))
      rw [hbj, Bool.false_and]

theorem or_mask_high (b : Nat) (hb : b < 2 ^ 64) :
    b ||| 15 * 2 ^ 60 = 15 * 2 ^ 60 + b % 2 ^ 60 := by
  apply Nat.eq_of_testBit_eq
  intro j
  rw [Nat.testBit_or]
  have hmod : b % 2 ^ 60 < 2 ^ 60 := Nat.mod_lt _ (by norm_num)
  rw [show 15 * 2 ^ 60 + b % 2 ^ 60 = 2 ^ 60 * 15 + b % 2 ^ 60 by ring,
    Nat.testBit_mul_pow_two_add _ hmod]
  rcases Nat.lt_or_ge j 60 with hj | hj
  · have h1 : Nat.testBit (15 * 2 ^ 60) j = false := by
      rw [Nat.mul_comm, Nat.testBit_mul_pow_two, decide_eq_false (by omega),
        Bool.false_and]
    rw [if_pos hj, h1, Bool.or_false, Nat.testBit_mod_two_pow,
      decide_eq_true hj, Bool.true_and]
  · have hmask : Nat.testBit (15 * 2 ^ 60) j = decide (j - 60 < 4) := by
      rw [Nat.mul_comm, Nat.testBit_mul_pow_two,
        show (15 : Nat) = 2 ^ 4 - 1 by norm_num, Nat.testBit_two_pow_sub_one,
        decide_eq_true (by omega : j ≥ 60), Bool.true_and]
    have h15 : Nat.testBit 15 (j - 60) = decide (j - 60 < 4) := by
      rw [show (15 : Nat) = 2 ^ 4 - 1 by norm_num, Nat.testBit_two_pow_sub_one]
    rw [if_neg (by omega), hmask, h15]
    rcases Nat.lt_or_ge j 64 with hj64 | hj64
    · rw [decide_eq_true (by omega : j - 60 < 4), Bool.or_true]
    · have hbj : Nat.testBit b j = false :=
        Nat.testBit_lt_two_pow (Nat.lt_of_lt_of_le hb
          (Nat.pow_le_pow_right (by norm_num) hj64))
      rw [hbj, decide_eq_false (by omega : ¬ (j - 60 < 4)), Bool.or_false]

theorem mask_bits_eq : RundownFlags.RUNDOWN_IN_PROGRESS.bits = 15 * 2 ^ 60 := by
  norm_num [RundownFlags.RUNDOWN_IN_PROGRESS]

theorem get_ref_to_flags (b : Nat) : (to_flags b).get_ref = b % 2 ^ 60 := by
  have h : RundownFlags.not64 RundownFlags.RUNDOWN_IN_PROGRESS.bits = 2 ^ 60 - 1 := by
    decide
  show b &&& RundownFlags.not64 RundownFlags.RUNDOWN_IN_PROGRESS.bits = b % 2 ^ 60
  rw [h, Nat.and_pow_two_sub_one_eq_mod]

theorem is_ref_zero_iff (b : Nat) :
    (to_flags b).is_ref_zero = true ↔ b % 2 ^ 60 = 0 := by
  show ((to_flags b).get_ref == 0) = true ↔ _
  rw [get_ref_to_flags, beq_iff_eq]

theorem is_ref_zero_eq_false_iff (b : Nat) :
    (to_flags b).is_ref_zero = false ↔ b % 2 ^ 60 ≠ 0 := by
  rw [ne_eq, ← is_ref_zero_iff b]
  cases (to_flags b).is_ref_zero <;> simp

theorem is_rundown_iff (b : Nat) (hb : b < 2 ^ 64) :
    (to_flags b).is_rundown_in_progress = true ↔ 15 * 2 ^ 60 ≤ b := by
  show ((to_flags b).contains RundownFlags.RUNDOWN_IN_PROGRESS) = true ↔ _
  unfold RundownFlags.contains
  rw [show (to_flags b).bits = b from rfl, mask_bits_eq, and_mask_high b hb,
    beq_iff_eq]
  have e60 : (2 : Nat) ^ 60 = 1152921504606846976 := by norm_num
  have e64 : (2 : Nat) ^ 64 = 18446744073709551616 := by norm_num
  rw [e60] at *
  rw [e64] at hb
  omega

theorem is_rundown_eq_false_iff (b : Nat) (hb : b < 2 ^ 64) :
    (to_flags b).is_rundown_in_progress = false ↔ b < 15 * 2 ^ 60 := by
  rw [show (b < 15 * 2 ^ 60) ↔ ¬ (15 * 2 ^ 60 ≤ b) by omega,
    ← is_rundown_iff b hb]
  cases (to_flags b).is_rundown_in_progress <;> simp

theorem set_rundown_to_flags (b : Nat) (hb : b < 2 ^ 64) :
    (to_flags b).set_rundown_in_progress = 15 * 2 ^ 60 + b % 2 ^ 60 := by
  show b ||| RundownFlags.RUNDOWN_IN_PROGRESS.bits = _
  rw [mask_bits_eq, or_mask_high b hb]

theorem add_ref_eq (b : Nat) (hb : b + 1 < 2 ^ 64) :
    (to_flags b).add_ref = some (b + 1) := by
  show (if b + 1 < 2 ^ 64 then some (b + 1) else none) = some (b + 1)
  rw [if_pos hb]

theorem dec_ref_eq (b : Nat) (hb : b ≠ 0) :
    (to_flags b).dec_ref = some (b - 1) := by
  show (if b = 0 then none else some (b - 1)) = some (b - 1)
  rw [if_neg hb]

@[simp] theorem bits_mk (b : Nat) : (RundownFlags.mk b).bits = b := rfl

theorem mk_eq_to_flags (b : Nat) : RundownFlags.mk b = to_flags b := rfl

@[simp] theorem load_flags_mk (b : Nat) (ev : Option EventState) :
    RundownRef.load_flags ⟨b, ev⟩ = to_flags b := rfl

@[simp] theorem ref_count_mk (b : Nat) (ev : Option EventState) :
    (⟨b, ev⟩ : RundownRef).ref_count = b := rfl

@[simp] theorem event_mk (b : Nat) (ev : Option EventState) :
    (⟨b, ev⟩ : RundownRef).event = ev := rfl

/-- A word that is fully drained (count zero, flag nibble all set) is
exactly the mask itself. -/
theorem drained_word_eq (b : Nat) (hb : b < 2 ^ 64)
    (hz : (to_flags b).is_ref_zero = true)
    (hd : (to_flags b).is_rundown_in_progress = true) :
    b = 15 * 2 ^ 60 := by
  rw [is_ref_zero_iff] at hz
  rw [is_rundown_iff b hb] at hd
  have e60 : (2 : Nat) ^ 60 = 1152921504606846976 := by norm_num
  have e64 : (2 : Nat) ^ 64 = 18446744073709551616 := by norm_num
  rw [e60] at *
  rw [e64] at hb
  omega

/-! ### The spec's StateWord view (section 4.1 of the specification) -/

/-- Modelled from the spec: the decoded pair of fields of the state word. -/
structure StateWord where
  active_count : Nat
  draining : Bool
deriving DecidableEq

/-- Modelled from the spec: `decode` splits the raw atomic payload into
`active_count` and `draining` using the fixed bit masks, i.e. the code's
view of a word through `to_flags`, `get_ref` and `is_rundown_in_progress`. -/
def decode (bits : Nat) : StateWord :=
  ⟨(to_flags bits).get_ref, (to_flags bits).is_rundown_in_progress⟩

/-- Modelled from the spec: `encode` recombines the fields; the code writes
such words by applying `set_rundown_in_progress` over a pure count. -/
def encode (s : StateWord) : Nat :=
  if s.draining then (to_flags s.active_count).set_rundown_in_progress
  else s.active_count

/-! ### Evaluation lemmas for the protocol operations -/

theorem try_acquire_internal_err (b : Nat) (ev : Option EventState)
    (hd : (to_flags b).is_rundown_in_progress = true) :
    RundownRef.try_acquire_internal ⟨b, ev⟩
      = some (⟨b, ev⟩, Except.error RundownError.RundownInProgress) := by
  unfold RundownRef.try_acquire_internal
  rw [load_flags_mk, hd]
  rfl

theorem try_acquire_internal_ok (b : Nat) (ev : Option EventState)
    (hd : (to_flags b).is_rundown_in_progress = false) (hb : b + 1 < 2 ^ 64) :
    RundownRef.try_acquire_internal ⟨b, ev⟩
      = some (⟨b + 1, ev⟩, Except.ok ()) := by
  unfold RundownRef.try_acquire_internal
  rw [load_flags_mk, hd, add_ref_eq b hb]
  rfl

theorem try_acquire_err (b : Nat) (ev : Option EventState)
    (hd : (to_flags b).is_rundown_in_progress = true) :
    RundownRef.try_acquire ⟨b, ev⟩
      = some (⟨b, ev⟩, Except.error RundownError.RundownInProgress) := by
  unfold RundownRef.try_acquire
  rw [try_acquire_internal_err b ev hd]

theorem try_acquire_ok (b : Nat) (ev : Option EventState)
    (hd : (to_flags b).is_rundown_in_progress = false) (hb : b + 1 < 2 ^ 64) :
    RundownRef.try_acquire ⟨b, ev⟩
      = some (⟨b + 1, ev⟩, Except.ok RundownGuard.mk) := by
  unfold RundownRef.try_acquire
  rw [try_acquire_internal_ok b ev hd hb]

theorem release_eq (b : Nat) (ev : Option EventState) (hne : b ≠ 0) :
    RundownRef.release ⟨b, ev⟩ =
      if (to_flags (b - 1)).is_ref_zero
          && (to_flags (b - 1)).is_rundown_in_progress then
        match ev with
        | none => none
        | some _ => some ⟨b - 1, some EventState.Set⟩
      else some ⟨b - 1, ev⟩ := by
  unfold RundownRef.release
  rw [load_flags_mk, dec_ref_eq b hne]

theorem rundown_commit_eq (b : Nat) (ev : Option EventState) :
    RundownRef.rundown_commit ⟨b, ev⟩ =
      ⟨(to_flags b).set_rundown_in_progress,
        if (to_flags b).is_ref_zero then ev
        else some (ev.getD EventState.Unset)⟩ := by
  unfold RundownRef.rundown_commit
  rw [load_flags_mk]

/-! ### Claim C1 -/

/-- C1 counterexample: at the word with the count field saturated
(`active_count = 2 ^ 60 - 1`, draining false), try_acquire succeeds but the
count field wraps to 0 instead of being incremented by exactly one. -/
theorem try_acquire_increment_claim_fails :
    RundownRef.try_acquire ⟨2 ^ 60 - 1, none⟩
        = some (⟨2 ^ 60, none⟩, Except.ok RundownGuard.mk)
    ∧ (to_flags (2 ^ 60 - 1)).is_rundown_in_progress = false
    ∧ (to_flags (2 ^ 60 - 1)).get_ref = 2 ^ 60 - 1
    ∧ (to_flags (2 ^ 60)).get_ref = 0 := by
  refine ⟨?_, by decide, by decide, by decide⟩
  rw [try_acquire_ok (2 ^ 60 - 1) none (by decide) (by decide)]
  decide

/-- C1 (amended): when the draining flag is set at the observed word,
try_acquire fails with RundownInProgress and leaves the state unchanged;
otherwise it returns a guard having incremented the raw word by one, which
increments active_count by exactly one whenever active_count is below its
field maximum 2 ^ 60 - 1.  It succeeds exactly when draining was false. -/
theorem try_acquire_spec (r : RundownRef) (hb : r.ref_count < 2 ^ 64) :
    ((r.load_flags).is_rundown_in_progress = true →
        r.try_acquire = some (r, Except.error RundownError.RundownInProgress))
    ∧ ((r.load_flags).is_rundown_in_progress = false →
        r.try_acquire = some (⟨r.ref_count + 1, r.event⟩, Except.ok RundownGuard.mk))
    ∧ ((r.load_flags).is_rundown_in_progress = false →
        (r.load_flags).get_ref < 2 ^ 60 - 1 →
        (to_flags (r.ref_count + 1)).get_ref = (r.load_flags).get_ref + 1
        ∧ (to_flags (r.ref_count + 1)).is_rundown_in_progress = false) := by
  obtain ⟨b, ev⟩ := r
  have hb' : b < 2 ^ 64 := hb
  simp only [load_flags_mk, ref_count_mk, event_mk]
  have e60 : (2 : Nat) ^ 60 = 1152921504606846976 := by norm_num
  have e64 : (2 : Nat) ^ 64 = 18446744073709551616 := by norm_num
  refine ⟨fun hd => try_acquire_err b ev hd, fun hd => ?_, fun hd hlt => ?_⟩
  · have hlt15 : b < 15 * 2 ^ 60 := (is_rundown_eq_false_iff b hb').mp hd
    exact try_acquire_ok b ev hd (by rw [e64]; rw [e60] at hlt15; omega)
  · have hlt15 : b < 15 * 2 ^ 60 := (is_rundown_eq_false_iff b hb').mp hd
    rw [get_ref_to_flags] at hlt
    rw [get_ref_to_flags, get_ref_to_flags]
    rw [e60] at hlt15 hlt ⊢
    constructor
    · omega
    · rw [is_rundown_eq_false_iff (b + 1) (by rw [e64]; omega), e60]
      omega

/-- C1 witness: on a fresh object try_acquire succeeds with the count going
to one, and on a drained object it fails leaving the word unchanged. -/
theorem try_acquire_spec_witness :
    RundownRef.try_acquire ⟨0, none⟩
        = some (⟨1, none⟩, Except.ok RundownGuard.mk)
    ∧ RundownRef.try_acquire ⟨15 * 2 ^ 60, none⟩
        = some (⟨15 * 2 ^ 60, none⟩, Except.error RundownError.RundownInProgress) := by
  have h1 := try_acquire_spec ⟨0, none⟩ (by decide)
  have h2 := try_acquire_spec ⟨15 * 2 ^ 60, none⟩ (by decide)
  exact ⟨h1.2.1 (by decide), h2.1 (by decide)⟩

/-! ### Claim C3 -/

/-- C3 (amended): on a word with a positive count field, release decrements
the count by exactly one preserving the draining flag, then sets the
completion event exactly when the post-decrement count is zero with
draining set; and no other operation (try_acquire, the rundown commit,
wait_for_rundown, re_init) ever moves the event to the set state.  The
positive-count hypothesis is forced: a guard drop can also run on a word
whose count field is already 0 (reachable with guards outstanding after
the count-field overflow of claim C6), where the decrement borrows from
the flag bits instead. -/
theorem release_spec (r : RundownRef) (hb : r.ref_count < 2 ^ 64)
    (hactive : (r.load_flags).is_ref_active = true) :
    ((r.load_flags).dec_ref = some (r.ref_count - 1)
      ∧ (to_flags (r.ref_count - 1)).get_ref + 1 = (r.load_flags).get_ref
      ∧ (to_flags (r.ref_count - 1)).is_rundown_in_progress
          = (r.load_flags).is_rundown_in_progress
      ∧ (((to_flags (r.ref_count - 1)).is_ref_zero
            && (to_flags (r.ref_count - 1)).is_rundown_in_progress) = true →
          r.event ≠ none →
          r.release = some ⟨r.ref_count - 1, some EventState.Set⟩)
      ∧ (((to_flags (r.ref_count - 1)).is_ref_zero
            && (to_flags (r.ref_count - 1)).is_rundown_in_progress) = false →
          r.release = some ⟨r.ref_count - 1, r.event⟩))
    ∧ (∀ (s s2 : RundownRef) (o : Except RundownError Unit),
        RundownRef.try_acquire_internal s = some (s2, o) → s2.event = s.event)
    ∧ (∀ s : RundownRef, (RundownRef.rundown_commit s).event = some EventState.Set
        → s.event = some EventState.Set)
    ∧ (∀ s s2 : RundownRef, RundownRef.wait_for_rundown s = some s2 →
        s2.event = some EventState.Set → s.event = some EventState.Set)
    ∧ (∀ s s2 : RundownRef, RundownRef.re_init s = some s2 →
        s2.event ≠ some EventState.Set) := by
  have hcommit : ∀ s : RundownRef,
      (RundownRef.rundown_commit s).event = some EventState.Set →
      s.event = some EventState.Set := by
    intro s h
    unfold RundownRef.rundown_commit at h
    simp only at h
    split at h
    · exact h
    · cases hse : s.event with
      | none => rw [hse] at h; exact absurd h (by decide)
      | some e => rw [hse] at h; exact h
  refine ⟨?_, ?_, hcommit, ?_, ?_⟩
  · obtain ⟨b, ev⟩ := r
    have hb' : b < 2 ^ 64 := hb
    simp only [load_flags_mk, ref_count_mk, event_mk] at hactive ⊢
    unfold RundownFlags.is_ref_active at hactive
    rw [decide_eq_true_eq, get_ref_to_flags] at hactive
    have hne : b ≠ 0 := by omega
    refine ⟨dec_ref_eq b hne, ?_, ?_, ?_, ?_⟩
    · rw [get_ref_to_flags, get_ref_to_flags]
      omega
    · rcases hA : (to_flags b).is_rundown_in_progress with _ | _
      · rw [is_rundown_eq_false_iff b hb'] at hA
        exact (is_rundown_eq_false_iff (b - 1) (by omega)).mpr (by omega)
      · rw [is_rundown_iff b hb'] at hA
        exact (is_rundown_iff (b - 1) (by omega)).mpr (by omega)
    · intro hc hev
      rw [release_eq b ev hne, if_pos hc]
      cases ev with
      | none => exact absurd rfl hev
      | some e => rfl
    · intro hc
      rw [release_eq b ev hne, if_neg (by rw [hc]; exact Bool.false_ne_true)]
  · intro s s2 o h
    unfold RundownRef.try_acquire_internal at h
    split at h
    · simp only [Option.some.injEq, Prod.mk.injEq] at h
      rw [← h.1]
    · split at h
      · exact absurd h (by simp)
      · simp only [Option.some.injEq, Prod.mk.injEq] at h
        rw [← h.1]
  · intro s s2 h hset
    unfold RundownRef.wait_for_rundown at h
    split at h
    · simp only [Option.some.injEq] at h
      exact hcommit s (by rw [h]; exact hset)
    · split at h
      · simp only [Option.some.injEq] at h
        exact hcommit s (by rw [h]; exact hset)
      · exact absurd h (by simp)
      · exact absurd h (by simp)
  · intro s s2 h
    unfold RundownRef.re_init at h
    split at h
    · exact absurd h (by simp)
    · simp only [Option.some.injEq] at h
      rw [← h]
      simp only [event_mk]
      cases s.event <;> simp

/-- C3 witness: the final guard released under draining sets the event, and
a release that leaves a positive count does not. -/
theorem release_spec_witness :
    RundownRef.release ⟨15 * 2 ^ 60 + 1, some EventState.Unset⟩
        = some ⟨15 * 2 ^ 60, some EventState.Set⟩
    ∧ RundownRef.release ⟨2, some EventState.Unset⟩
        = some ⟨1, some EventState.Unset⟩ := by
  have h1 := release_spec ⟨15 * 2 ^ 60 + 1, some EventState.Unset⟩
    (by decide) (by decide)
  have h2 := release_spec ⟨2, some EventState.Unset⟩ (by decide) (by decide)
  exact ⟨h1.1.2.2.2.1 (by decide) (by decide), h2.1.2.2.2.2 (by decide)⟩

/-! ### Claim C4 -/

/-- C4: re_init is the fatal fault exactly when the object is not fully
drained; on a fully drained object it resets the event to unset (when one
exists), stores the zero word, and a subsequent try_acquire succeeds. -/
theorem re_init_spec (r : RundownRef) :
    (r.re_init = none ↔
      ¬ ((r.load_flags).is_rundown_in_progress = true
          ∧ (r.load_flags).is_ref_zero = true))
    ∧ (∀ r2 : RundownRef, r.re_init = some r2 →
        r2.ref_count = 0
        ∧ (r2.load_flags).get_ref = 0
        ∧ (r2.load_flags).is_rundown_in_progress = false
        ∧ r2.event = r.event.map (fun _ => EventState.Unset)
        ∧ r2.try_acquire_internal = some (⟨1, r2.event⟩, Except.ok ())) := by
  unfold RundownRef.re_init
  rcases hA : (r.load_flags).is_rundown_in_progress
    <;> rcases hB : (r.load_flags).is_ref_zero
    <;> simp only [Bool.not_true, Bool.not_false, Bool.true_or, Bool.or_true,
      Bool.false_or, Bool.or_false, if_true, if_false, Bool.false_eq_true,
      Bool.true_eq_false, ite_true, ite_false]
  · exact ⟨by simp, by intro r2 h; exact absurd h (by simp)⟩
  · exact ⟨by simp, by intro r2 h; exact absurd h (by simp)⟩
  · exact ⟨by simp, by intro r2 h; exact absurd h (by simp)⟩
  · refine ⟨by simp, ?_⟩
    intro r2 h
    simp only [Option.some.injEq] at h
    subst h
    exact ⟨rfl, show (to_flags 0).get_ref = 0 by decide,
      show (to_flags 0).is_rundown_in_progress = false by decide, rfl,
      try_acquire_internal_ok 0 _ (by decide) (by decide)⟩

/-- C4 witness: re_init succeeds on a fully drained object, and acquiring
from the reset word succeeds. -/
theorem re_init_spec_witness :
    RundownRef.re_init ⟨15 * 2 ^ 60, some EventState.Set⟩
        = some ⟨0, some EventState.Unset⟩
    ∧ RundownRef.try_acquire_internal ⟨0, some EventState.Unset⟩
        = some (⟨1, some EventState.Unset⟩, Except.ok ()) := by
  have h := (re_init_spec ⟨15 * 2 ^ 60, some EventState.Set⟩).2
    ⟨0, some EventState.Unset⟩ (by decide)
  exact ⟨by decide, h.2.2.2.2⟩

/-! ### Claim C5 -/

/-- C5 counterexample: at the word with active_count 0 but the draining flag
set, dec_ref does not fault; it borrows from the flag bits, yielding a
corrupted word whose count is the field maximum with draining cleared. -/
theorem dec_ref_underflow_claim_fails :
    (RundownFlags.mk (15 * 2 ^ 60)).get_ref = 0
    ∧ (RundownFlags.mk (15 * 2 ^ 60)).is_rundown_in_progress = true
    ∧ (RundownFlags.mk (15 * 2 ^ 60)).dec_ref = some (15 * 2 ^ 60 - 1)
    ∧ (to_flags (15 * 2 ^ 60 - 1)).get_ref = 2 ^ 60 - 1
    ∧ (to_flags (15 * 2 ^ 60 - 1)).is_rundown_in_progress = false := by
  decide

/-- C5 (amended): dec_ref faults with underflow exactly when the whole
64-bit word is zero (count zero and no flag bits); applied to the word with
count zero and the draining flag set it instead succeeds, producing the
corrupted word with count 2 ^ 60 - 1 and draining cleared. -/
theorem dec_ref_spec (f : RundownFlags) (hb : f.bits < 2 ^ 64) :
    (f.dec_ref = none ↔ f.bits = 0)
    ∧ (f.get_ref = 0 → f.is_rundown_in_progress = true →
        f.bits = 15 * 2 ^ 60
        ∧ f.dec_ref = some (15 * 2 ^ 60 - 1)
        ∧ (to_flags (15 * 2 ^ 60 - 1)).get_ref = 2 ^ 60 - 1
        ∧ (to_flags (15 * 2 ^ 60 - 1)).is_rundown_in_progress = false) := by
  obtain ⟨b⟩ := f
  have hb' : b < 2 ^ 64 := hb
  constructor
  · show (if b = 0 then none else some (b - 1)) = none ↔ b = 0
    by_cases h0 : b = 0
    · simp [h0]
    · simp [h0]
  · intro h0 hd
    have hz : (to_flags b).is_ref_zero = true := by
      rw [is_ref_zero_iff, ← get_ref_to_flags]
      exact h0
    have hbe : b = 15 * 2 ^ 60 := drained_word_eq b hb' hz hd
    subst hbe
    exact ⟨rfl, by decide, by decide, by decide⟩

/-- C5 witness: at the all-zero word dec_ref faults, and the drained word is
the unique count-zero draining word. -/
theorem dec_ref_spec_witness :
    (RundownFlags.mk 0).dec_ref = none
    ∧ (RundownFlags.mk (15 * 2 ^ 60)).bits = 15 * 2 ^ 60 := by
  have h0 := dec_ref_spec (RundownFlags.mk 0) (by decide)
  have h1 := dec_ref_spec (RundownFlags.mk (15 * 2 ^ 60)) (by decide)
  exact ⟨h0.1.mpr rfl, (h1.2 (by decide) (by decide)).1⟩

/-! ### Claim C6 -/

/-- C6 counterexample: at the word whose count field is at its maximum
(2 ^ 60 - 1, no flags), add_ref does not fault; the increment silently
spills into the flag nibble and the count field wraps to 0. -/
theorem add_ref_overflow_claim_fails :
    (RundownFlags.mk (2 ^ 60 - 1)).get_ref = 2 ^ 60 - 1
    ∧ (RundownFlags.mk (2 ^ 60 - 1)).is_rundown_in_progress = false
    ∧ (RundownFlags.mk (2 ^ 60 - 1)).add_ref = some (2 ^ 60)
    ∧ (to_flags (2 ^ 60)).get_ref = 0
    ∧ (to_flags (2 ^ 60)).is_rundown_in_progress = false := by
  decide

/-- C6 (amended): add_ref faults with overflow exactly when the whole
64-bit word is 2 ^ 64 - 1; on every other word it returns the plain
successor, and when the count field is at its maximum the successor's count
field has wrapped to zero. -/
theorem add_ref_spec (f : RundownFlags) (hb : f.bits < 2 ^ 64) :
    (f.add_ref = none ↔ f.bits = 2 ^ 64 - 1)
    ∧ (f.bits ≠ 2 ^ 64 - 1 → f.add_ref = some (f.bits + 1))
    ∧ (f.get_ref = 2 ^ 60 - 1 → f.bits ≠ 2 ^ 64 - 1 →
        (to_flags (f.bits + 1)).get_ref = 0) := by
  obtain ⟨b⟩ := f
  have hb' : b < 2 ^ 64 := hb
  refine ⟨?_, ?_, ?_⟩
  · show (if b + 1 < 2 ^ 64 then some (b + 1) else none) = none ↔ b = 2 ^ 64 - 1
    by_cases hc : b + 1 < 2 ^ 64
    · rw [if_pos hc]
      simp only [reduceCtorEq, false_iff]
      omega
    · rw [if_neg hc]
      simp only [true_iff]
      omega
  · intro hne
    have hne' : b ≠ 2 ^ 64 - 1 := hne
    show (if b + 1 < 2 ^ 64 then some (b + 1) else none) = some (b + 1)
    rw [if_pos (by omega)]
  · intro hmax hne
    have hm : b % 2 ^ 60 = 2 ^ 60 - 1 := by rw [← get_ref_to_flags]; exact hmax
    show (to_flags (b + 1)).get_ref = 0
    rw [get_ref_to_flags]
    omega

/-- C6 witness: the sole faulting word is the all-ones word, and an ordinary
increment succeeds. -/
theorem add_ref_spec_witness :
    (RundownFlags.mk (2 ^ 64 - 1)).add_ref = none
    ∧ (RundownFlags.mk 7).add_ref = some 8 := by
  have h0 := add_ref_spec (RundownFlags.mk (2 ^ 64 - 1)) (by decide)
  have h1 := add_ref_spec (RundownFlags.mk 7) (by decide)
  exact ⟨h0.1.mpr rfl, h1.2.1 (by decide)⟩

/-! ### Claim C9 -/

/-- C9: converting raw bits to flags and back reproduces the same bits for
every payload; the decoded count and draining fields are read from the
disjoint low-60-bit and high-4-bit ranges; and decode after encode is the
identity on every valid state word. -/
theorem to_flags_round_trip :
    (∀ bits : Nat, (to_flags bits).bits = bits)
    ∧ (∀ bits : Nat, bits < 2 ^ 64 →
        (to_flags bits).get_ref = bits % 2 ^ 60
        ∧ ((to_flags bits).is_rundown_in_progress = true ↔ 15 * 2 ^ 60 ≤ bits))
    ∧ (∀ s : StateWord, s.active_count < 2 ^ 60 → decode (encode s) = s) := by
  refine ⟨fun bits => rfl,
    fun bits hb => ⟨get_ref_to_flags bits, is_rundown_iff bits hb⟩, ?_⟩
  intro s hs
  obtain ⟨c, d⟩ := s
  have hs' : c < 2 ^ 60 := hs
  have hc64 : c < 2 ^ 64 := by omega
  cases d
  · show decode c = ⟨c, false⟩
    unfold decode
    rw [get_ref_to_flags, Nat.mod_eq_of_lt hs',
      (is_rundown_eq_false_iff c hc64).mpr (by omega)]
  · show decode ((to_flags c).set_rundown_in_progress) = ⟨c, true⟩
    rw [set_rundown_to_flags c hc64, Nat.mod_eq_of_lt hs']
    unfold decode
    rw [get_ref_to_flags,
      (is_rundown_iff (15 * 2 ^ 60 + c) (by omega)).mpr (by omega),
      show (15 * 2 ^ 60 + c) % 2 ^ 60 = c by omega]

/-- C9 witness: the round trips evaluated at a word carrying both a count
and the flag nibble. -/
theorem to_flags_round_trip_witness :
    (to_flags 17293822569102704643).bits = 17293822569102704643
    ∧ decode (encode ⟨5, true⟩) = ⟨5, true⟩ := by
  have h := to_flags_round_trip
  exact ⟨h.1 17293822569102704643, h.2.2 ⟨5, true⟩ (by decide)⟩

/-! ### Claim C10 -/

/-- C10: re_init on a fully drained object whose event was never constructed
does not fault: the event reset is skipped (the lazy slot stays empty) and
the zero word (count 0, draining false) is stored. -/
theorem re_init_without_event (r : RundownRef)
    (he : r.event = none)
    (hd : (r.load_flags).is_rundown_in_progress = true)
    (hz : (r.load_flags).is_ref_zero = true) :
    r.re_init = some ⟨0, none⟩
    ∧ (to_flags 0).get_ref = 0
    ∧ (to_flags 0).is_rundown_in_progress = false := by
  refine ⟨?_, by decide, by decide⟩
  unfold RundownRef.re_init
  rw [hd, hz, he]
  rfl

/-- C10 witness: the drained word with no event re-initializes to the fresh
state. -/
theorem re_init_without_event_witness :
    RundownRef.re_init ⟨15 * 2 ^ 60, none⟩ = some ⟨0, none⟩ :=
  (re_init_without_event ⟨15 * 2 ^ 60, none⟩ rfl (by decide) (by decide)).1

/-! ### Interleaved execution model

A world is the shared object together with the number of outstanding
guards.  A step is one atomic commit by one thread: a successful
try_acquire CAS; a guard drop running release, whose CAS and (for the
final releaser) event signal are one step because the single-owner
contract keeps re_init from running before the signal is observed; one
committing CAS iteration of wait_for_rundown, whose event creation happens
just before the CAS inside the same iteration and persists; the event
creation of a wait_for_rundown iteration that observed a non-zero count
but then lost its CAS; and a successful re_init.  Failed try_acquire calls
and the blocking wait do not change the state.  The `ra` flag switches the
re_init step on and off, so that a statement of the form "until re_init is
called" can quantify over `Step false` chains. -/

@[simp] theorem bits_to_flags (b : Nat) : (to_flags b).bits = b := rfl

theorem load_flags_def (r : RundownRef) : r.load_flags = to_flags r.ref_count := rfl

theorem rundown_commit_def (r : RundownRef) :
    r.rundown_commit =
      ⟨(r.load_flags).set_rundown_in_progress,
        if (r.load_flags).is_ref_zero then r.event
        else some (r.event.getD EventState.Unset)⟩ := rfl

structure World where
  ref : RundownRef
  guards : Nat
deriving DecidableEq

@[simp] theorem World.ref_mk (r : RundownRef) (g : Nat) :
    (⟨r, g⟩ : World).ref = r := rfl

@[simp] theorem World.guards_mk (r : RundownRef) (g : Nat) :
    (⟨r, g⟩ : World).guards = g := rfl

/-- The initial world: a fresh object, no guards outstanding. -/
def World.init : World := ⟨RundownRef.new, 0⟩

inductive Step (ra : Bool) : World → World → Prop where
  | acquire (w : World) (r2 : RundownRef)
      (h : w.ref.try_acquire_internal = some (r2, Except.ok ())) :
      Step ra w ⟨r2, w.guards + 1⟩
  | release (w : World) (r2 : RundownRef)
      (hg : 1 ≤ w.guards) (h : w.ref.release = some r2) :
      Step ra w ⟨r2, w.guards - 1⟩
  | drain (w : World) :
      Step ra w ⟨w.ref.rundown_commit, w.guards⟩
  | create (w : World)
      (hc : (w.ref.load_flags).is_ref_zero = false) (he : w.ref.event = none) :
      Step ra w ⟨⟨w.ref.ref_count, some EventState.Unset⟩, w.guards⟩
  | reinit (w : World) (r2 : RundownRef)
      (hra : ra = true) (h : w.ref.re_init = some r2) :
      Step ra w ⟨r2, w.guards⟩

inductive Reachable : World → Prop where
  | init : Reachable World.init
  | step {w w2 : World} : Reachable w → Step true w w2 → Reachable w2

/-! ### Inversion lemmas for the protocol operations -/

theorem dec_ref_inv (b bd : Nat) (h : (to_flags b).dec_ref = some bd) :
    b ≠ 0 ∧ bd = b - 1 := by
  unfold RundownFlags.dec_ref at h
  simp only [bits_to_flags] at h
  split at h
  · exact absurd h (by simp)
  · next hne =>
    simp only [Option.some.injEq] at h
    exact ⟨hne, h.symm⟩

theorem add_ref_inv (b nb : Nat) (h : (to_flags b).add_ref = some nb) :
    b + 1 < 2 ^ 64 ∧ nb = b + 1 := by
  unfold RundownFlags.add_ref at h
  simp only [bits_to_flags] at h
  split at h
  · next hlt =>
    simp only [Option.some.injEq] at h
    exact ⟨hlt, h.symm⟩
  · exact absurd h (by simp)

theorem try_acquire_internal_inv (r r2 : RundownRef) (o : Except RundownError Unit)
    (h : r.try_acquire_internal = some (r2, o)) :
    (o = Except.error RundownError.RundownInProgress ∧ r2 = r
      ∧ (r.load_flags).is_rundown_in_progress = true)
    ∨ (o = Except.ok () ∧ (r.load_flags).is_rundown_in_progress = false
      ∧ r.ref_count + 1 < 2 ^ 64 ∧ r2 = ⟨r.ref_count + 1, r.event⟩) := by
  unfold RundownRef.try_acquire_internal at h
  split at h
  · next hd =>
    left
    simp only [Option.some.injEq, Prod.mk.injEq] at h
    exact ⟨h.2.symm, h.1.symm, hd⟩
  · next hd =>
    right
    split at h
    · exact absurd h (by simp)
    · next nb heq =>
      simp only [Option.some.injEq, Prod.mk.injEq] at h
      have hadd := add_ref_inv r.ref_count nb (by rw [← load_flags_def]; exact heq)
      refine ⟨h.2.symm, by simpa using hd, hadd.1, ?_⟩
      rw [← h.1, hadd.2]

theorem release_inv (r r2 : RundownRef) (h : r.release = some r2) :
    r.ref_count ≠ 0
    ∧ r2.ref_count = r.ref_count - 1
    ∧ (r2.event = r.event ∨ (r2.event = some EventState.Set ∧ r.event ≠ none)) := by
  unfold RundownRef.release at h
  split at h
  · exact absurd h (by simp)
  · next bd heq =>
    have hdec := dec_ref_inv r.ref_count bd (by rw [← load_flags_def]; exact heq)
    obtain ⟨hne, rfl⟩ := hdec
    split at h
    · split at h
      · exact absurd h (by simp)
      · next e hev =>
        simp only [Option.some.injEq] at h
        rw [← h]
        exact ⟨hne, rfl, Or.inr ⟨rfl, by rw [hev]; simp⟩⟩
    · simp only [Option.some.injEq] at h
      rw [← h]
      exact ⟨hne, rfl, Or.inl rfl⟩

theorem re_init_inv (r r2 : RundownRef) (h : r.re_init = some r2) :
    (r.load_flags).is_rundown_in_progress = true
    ∧ (r.load_flags).is_ref_zero = true
    ∧ r2 = ⟨0, r.event.map (fun _ => EventState.Unset)⟩ := by
  unfold RundownRef.re_init at h
  split at h
  · exact absurd h (by simp)
  · next hcond =>
    simp only [Bool.or_eq_true, Bool.not_eq_true', not_or] at hcond
    simp only [Option.some.injEq] at h
    refine ⟨?_, ?_, h.symm⟩
    · have := hcond.1
      simp only [Bool.not_eq_false] at this
      exact this
    · have := hcond.2
      simp only [Bool.not_eq_false] at this
      exact this

/-! ### Claim C7 -/

/-- Invariant for C7: the word fits in 64 bits, and whenever the draining
flag is set while the count is non-zero, the event has been constructed. -/
def Inv7 (w : World) : Prop :=
  w.ref.ref_count < 2 ^ 64
  ∧ ((w.ref.load_flags).is_rundown_in_progress = true →
      (w.ref.load_flags).is_ref_zero = false →
      w.ref.event ≠ none)

theorem inv7_mk (r : RundownRef) (g : Nat) :
    Inv7 ⟨r, g⟩ ↔
      (r.ref_count < 2 ^ 64
        ∧ ((to_flags r.ref_count).is_rundown_in_progress = true →
            (to_flags r.ref_count).is_ref_zero = false →
            r.event ≠ none)) := Iff.rfl

theorem inv7_init : Inv7 World.init := by
  refine ⟨by decide, fun hd _ _ => ?_⟩
  exact absurd hd (by decide)

theorem inv7_step {w w2 : World} (hi : Inv7 w) (hs : Step true w w2) :
    Inv7 w2 := by
  obtain ⟨hb, hinv⟩ := hi
  rw [load_flags_def] at hinv
  cases hs with
  | acquire r2 h =>
    rcases try_acquire_internal_inv _ _ _ h with ⟨ho, _, _⟩ | ⟨_, hd, hlt, rfl⟩
    · exact absurd ho (by simp)
    · rw [inv7_mk]
      simp only [ref_count_mk, event_mk]
      rw [load_flags_def, is_rundown_eq_false_iff _ hb] at hd
      refine ⟨hlt, fun hd2 hz2 => ?_⟩
      rw [is_rundown_iff _ hlt] at hd2
      rw [is_ref_zero_eq_false_iff] at hz2
      exact absurd hd2 (by omega)
  | release r2 hg h =>
    obtain ⟨hne, hrc, hev⟩ := release_inv _ _ h
    rw [inv7_mk]
    refine ⟨by omega, fun hd2 hz2 => ?_⟩
    rw [hrc, is_rundown_iff _ (by omega)] at hd2
    rw [hrc, is_ref_zero_eq_false_iff] at hz2
    have hpre : w.ref.event ≠ none := by
      apply hinv
      · rw [is_rundown_iff _ hb]
        omega
      · rw [is_ref_zero_eq_false_iff]
        omega
    rcases hev with he | ⟨he, _⟩
    · rw [he]; exact hpre
    · rw [he]; simp
  | drain =>
    rw [inv7_mk, rundown_commit_def, load_flags_def]
    simp only [ref_count_mk, event_mk]
    rw [set_rundown_to_flags _ hb]
    have hmod : w.ref.ref_count % 2 ^ 60 < 2 ^ 60 := Nat.mod_lt _ (by norm_num)
    refine ⟨by omega, fun _ hz2 => ?_⟩
    rw [is_ref_zero_eq_false_iff] at hz2
    have hz : (to_flags w.ref.ref_count).is_ref_zero = false := by
      rw [is_ref_zero_eq_false_iff]
      omega
    rw [hz]
    simp
  | create hc he =>
    rw [inv7_mk]
    simp only [ref_count_mk, event_mk]
    exact ⟨hb, fun _ _ => by simp⟩
  | reinit r2 hra h =>
    obtain ⟨_, _, rfl⟩ := re_init_inv _ _ h
    rw [inv7_mk]
    simp only [ref_count_mk, event_mk]
    exact ⟨by decide, fun hd2 _ => absurd hd2 (by decide)⟩

theorem inv7_of_reachable {w : World} (hw : Reachable w) : Inv7 w := by
  induction hw with
  | init => exact inv7_init
  | step _ hs ih => exact inv7_step ih hs

/-- C7: in every reachable world, if the draining flag is set while the
count is non-zero then the completion event has been constructed; hence
whenever a release decrements to the count-zero draining word, the event
fetch succeeds and the release sets the event. -/
theorem rundown_signal_invariant (w : World) (hw : Reachable w) :
    ((w.ref.load_flags).is_rundown_in_progress = true →
      (w.ref.load_flags).is_ref_zero = false →
      w.ref.event ≠ none)
    ∧ (∀ b : Nat, (w.ref.load_flags).dec_ref = some b →
        ((to_flags b).is_ref_zero && (to_flags b).is_rundown_in_progress) = true →
        w.ref.event ≠ none
        ∧ w.ref.release = some ⟨b, some EventState.Set⟩) := by
  obtain ⟨⟨bits, ev⟩, g⟩ := w
  obtain ⟨hb, hinv⟩ := inv7_of_reachable hw
  simp only [World.ref_mk, ref_count_mk, event_mk, load_flags_mk] at hb hinv ⊢
  refine ⟨hinv, fun b hdec hcond => ?_⟩
  obtain ⟨hne, rfl⟩ := dec_ref_inv bits b hdec
  rw [Bool.and_eq_true] at hcond
  obtain ⟨hz, hd⟩ := hcond
  rw [is_ref_zero_iff] at hz
  rw [is_rundown_iff _ (by omega)] at hd
  have hbits : bits = 15 * 2 ^ 60 + 1 := by omega
  subst hbits
  have hev : ev ≠ none := hinv (by decide) (by decide)
  refine ⟨hev, ?_⟩
  rw [release_eq _ ev (by decide), if_pos (by decide)]
  cases ev with
  | none => exact absurd rfl hev
  | some e => rfl

/-- C7 witness: a world reached by an acquire followed by the drain commit
has the event constructed, and the pending release finds and sets it. -/
theorem rundown_signal_invariant_witness :
    (⟨15 * 2 ^ 60 + 1, some EventState.Unset⟩ : RundownRef).event ≠ none
    ∧ RundownRef.release ⟨15 * 2 ^ 60 + 1, some EventState.Unset⟩
        = some ⟨15 * 2 ^ 60, some EventState.Set⟩ := by
  have hr1 : Reachable ⟨⟨1, none⟩, 1⟩ :=
    Reachable.step Reachable.init (Step.acquire World.init ⟨1, none⟩ (by decide))
  have hr2 : Reachable ⟨⟨15 * 2 ^ 60 + 1, some EventState.Unset⟩, 1⟩ := by
    have h := Reachable.step hr1 (Step.drain ⟨⟨1, none⟩, 1⟩)
    have e : RundownRef.rundown_commit ⟨1, none⟩
        = ⟨15 * 2 ^ 60 + 1, some EventState.Unset⟩ := by decide
    rw [e] at h
    exact h
  have h := rundown_signal_invariant ⟨⟨15 * 2 ^ 60 + 1, some EventState.Unset⟩, 1⟩ hr2
  exact (h.2 (15 * 2 ^ 60) (by decide) (by decide))

/-! ### Claims C2 and C8: the drain protocol under the protocol invariant -/

/-- A finer inversion for release keeping the branch condition. -/
theorem release_inv2 (r r2 : RundownRef) (h : r.release = some r2) :
    r.ref_count ≠ 0
    ∧ r2.ref_count = r.ref_count - 1
    ∧ ((((to_flags (r.ref_count - 1)).is_ref_zero
          && (to_flags (r.ref_count - 1)).is_rundown_in_progress) = true
          ∧ r2.event = some EventState.Set ∧ r.event ≠ none)
      ∨ (((to_flags (r.ref_count - 1)).is_ref_zero
          && (to_flags (r.ref_count - 1)).is_rundown_in_progress) = false
          ∧ r2.event = r.event)) := by
  unfold RundownRef.release at h
  split at h
  · exact absurd h (by simp)
  · next bd heq =>
    obtain ⟨hne, rfl⟩ := dec_ref_inv r.ref_count bd (by rw [← load_flags_def]; exact heq)
    split at h
    · next hcond =>
      split at h
      · exact absurd h (by simp)
      · next e hev =>
        simp only [Option.some.injEq] at h
        rw [← h]
        exact ⟨hne, rfl, Or.inl ⟨hcond, rfl, by rw [hev]; simp⟩⟩
    · next hcond =>
      simp only [Option.some.injEq] at h
      rw [← h]
      refine ⟨hne, rfl, Or.inr ⟨?_, rfl⟩⟩
      cases hx : ((to_flags (r.ref_count - 1)).is_ref_zero
          && (to_flags (r.ref_count - 1)).is_rundown_in_progress) with
      | false => rfl
      | true => exact absurd hx hcond

/-- The protocol invariant: fewer than 2 ^ 60 guards outstanding (the count
field never saturates), the word is exactly the outstanding-guard count
with the flag nibble present or absent, a set event implies the fully
drained word, and a draining word with outstanding guards has the event
constructed.  It holds initially and is preserved by every step that keeps
the guard count below 2 ^ 60 (`invB_init`, `invB_step`); the amended
claims C2 and C8 assume it, the in-range proviso forced by the silent
count-field overflow of add_ref recorded at claim C6. -/
@[reducible] def InvB (w : World) : Prop :=
  w.guards < 2 ^ 60
  ∧ (w.ref.ref_count = w.guards ∨ w.ref.ref_count = 15 * 2 ^ 60 + w.guards)
  ∧ (w.ref.event = some EventState.Set → w.ref.ref_count = 15 * 2 ^ 60)
  ∧ (w.ref.ref_count = 15 * 2 ^ 60 + w.guards → w.guards ≠ 0 → w.ref.event ≠ none)

theorem invB_mk (r : RundownRef) (g : Nat) :
    InvB ⟨r, g⟩ ↔
      (g < 2 ^ 60
        ∧ (r.ref_count = g ∨ r.ref_count = 15 * 2 ^ 60 + g)
        ∧ (r.event = some EventState.Set → r.ref_count = 15 * 2 ^ 60)
        ∧ (r.ref_count = 15 * 2 ^ 60 + g → g ≠ 0 → r.event ≠ none)) := Iff.rfl

theorem invB_init : InvB World.init :=
  ⟨by decide, Or.inl rfl, fun h => absurd h (by decide), fun h _ => absurd h (by decide)⟩

theorem invB_step {w w2 : World} (hi : InvB w) (hs : Step true w w2)
    (hgb : w2.guards < 2 ^ 60) : InvB w2 := by
  obtain ⟨hg, hshape, hset, hrd⟩ := hi
  have hb : w.ref.ref_count < 2 ^ 64 := by rcases hshape with h1 | h1 <;> omega
  cases hs with
  | acquire r2 h =>
    simp only [World.guards_mk] at hgb
    rcases try_acquire_internal_inv _ _ _ h with ⟨ho, _, _⟩ | ⟨_, hd, hlt, rfl⟩
    · exact absurd ho (by simp)
    · rw [invB_mk]
      simp only [ref_count_mk, event_mk]
      rw [load_flags_def, is_rundown_eq_false_iff _ hb] at hd
      rcases hshape with h1 | h1
      · refine ⟨hgb, Or.inl (by omega), fun hS => ?_, fun heq _ => ?_⟩
        · exact absurd (hset hS) (by omega)
        · exact absurd heq (by omega)
      · exact absurd h1 (by omega)
  | release r2 hg2 h =>
    simp only [World.guards_mk] at hgb
    obtain ⟨hne, hrc, hbr⟩ := release_inv2 _ _ h
    rw [invB_mk]
    have hnotset : w.ref.event ≠ some EventState.Set := by
      intro hS
      have := hset hS
      rcases hshape with h1 | h1 <;> omega
    rcases hshape with h1 | h1
    · rcases hbr with ⟨hcond, _, _⟩ | ⟨_, hev⟩
      · rw [Bool.and_eq_true, is_ref_zero_iff,
          is_rundown_iff _ (by omega)] at hcond
        exact absurd hcond.2 (by omega)
      · refine ⟨by omega, Or.inl (by omega), fun hS => ?_, fun heq _ => ?_⟩
        · rw [hev] at hS
          exact absurd hS hnotset
        · exact absurd heq (by omega)
    · rcases hbr with ⟨hcond, hev, _⟩ | ⟨hcond, hev⟩
      · rw [Bool.and_eq_true, is_ref_zero_iff,
          is_rundown_iff _ (by omega)] at hcond
        refine ⟨by omega, Or.inr (by omega), fun _ => by omega, fun _ _ => ?_⟩
        rw [hev]
        simp
      · refine ⟨by omega, Or.inr (by omega), fun hS => ?_, fun _ hgz => ?_⟩
        · rw [hev] at hS
          exact absurd hS hnotset
        · rw [hev]
          exact hrd (by omega) (by omega)
  | drain =>
    rw [invB_mk, rundown_commit_def, load_flags_def, set_rundown_to_flags _ hb]
    simp only [ref_count_mk, event_mk]
    have hmodg : w.ref.ref_count % 2 ^ 60 = w.guards := by
      rcases hshape with h1 | h1 <;> omega
    refine ⟨hg, Or.inr (by omega), fun hS => ?_, fun _ hgz => ?_⟩
    · split at hS
      · have := hset hS
        rcases hshape with h1 | h1 <;> omega
      · next hzf =>
        rw [is_ref_zero_iff] at hzf
        cases hevp : w.ref.event with
        | none => rw [hevp] at hS; exact absurd hS (by decide)
        | some e =>
          rw [hevp] at hS
          simp only [Option.getD, Option.some.injEq] at hS
          rw [hS] at hevp
          have := hset hevp
          omega
    · split
      · next hzt =>
        rw [is_ref_zero_iff] at hzt
        exact hrd (by omega) (by omega)
      · simp
  | create hc he =>
    rw [invB_mk]
    simp only [ref_count_mk, event_mk]
    refine ⟨hg, hshape, fun hS => absurd hS (by simp), fun _ _ => by simp⟩
  | reinit r2 hra h =>
    obtain ⟨hd, hz, rfl⟩ := re_init_inv _ _ h
    rw [load_flags_def, is_ref_zero_iff] at hz
    rw [invB_mk]
    simp only [ref_count_mk, event_mk]
    have hg0 : w.guards = 0 := by rcases hshape with h1 | h1 <;> omega
    refine ⟨hg, Or.inl (by omega), fun hS => ?_, fun heq _ => ?_⟩
    · cases hevp : w.ref.event with
      | none => rw [hevp] at hS; exact absurd hS (by simp)
      | some e => rw [hevp] at hS; exact absurd hS (by simp)
    · exact absurd heq (by omega)

/-- Under the protocol invariant, a wait_for_rundown that returns does so
with no guards outstanding, and its result is the drained word with the
event slot untouched. -/
theorem wait_some_of_invB (w : World) (hI : InvB w) (r2 : RundownRef)
    (h : w.ref.wait_for_rundown = some r2) :
    w.guards = 0 ∧ r2 = ⟨15 * 2 ^ 60, w.ref.event⟩ := by
  obtain ⟨⟨bits, ev⟩, g⟩ := w
  obtain ⟨hg, hshape, hset, hrd⟩ := hI
  simp only [World.ref_mk, World.guards_mk, ref_count_mk, event_mk]
    at hg hshape hset hrd h ⊢
  have hb : bits < 2 ^ 64 := by rcases hshape with h1 | h1 <;> omega
  have hmodg : bits % 2 ^ 60 = g := by rcases hshape with h1 | h1 <;> omega
  have hcommit : RundownRef.rundown_commit ⟨bits, ev⟩ =
      ⟨15 * 2 ^ 60 + bits % 2 ^ 60,
        if (to_flags bits).is_ref_zero then ev
        else some (ev.getD EventState.Unset)⟩ := by
    rw [rundown_commit_eq, set_rundown_to_flags _ hb]
  unfold RundownRef.wait_for_rundown at h
  rw [hcommit] at h
  simp only [load_flags_mk, ref_count_mk, event_mk] at h
  by_cases hg0 : g = 0
  · subst hg0
    rw [if_pos (by rw [is_ref_zero_iff]; omega)] at h
    simp only [Option.some.injEq] at h
    refine ⟨rfl, ?_⟩
    rw [← h, if_pos (by rw [is_ref_zero_iff]; omega), hmodg]
    rfl
  · exfalso
    rw [if_neg (by rw [is_ref_zero_iff]; omega)] at h
    rw [if_neg (by rw [is_ref_zero_iff]; omega)] at h
    cases hevp : ev with
    | none =>
      rw [hevp] at h
      have h2 : (none : Option RundownRef) = some r2 := h
      exact absurd h2 (by simp)
    | some e =>
      rw [hevp] at h
      cases e with
      | Unset =>
        have h2 : (none : Option RundownRef) = some r2 := h
        exact absurd h2 (by simp)
      | Set =>
        have := hset hevp
        omega

/-- The draining states closed under every step other than re_init: the
word keeps the flag nibble and exactly counts the outstanding guards. -/
@[reducible] def Sticky (w : World) : Prop :=
  w.guards < 2 ^ 60 ∧ w.ref.ref_count = 15 * 2 ^ 60 + w.guards

theorem sticky_mk (r : RundownRef) (g : Nat) :
    Sticky ⟨r, g⟩ ↔ (g < 2 ^ 60 ∧ r.ref_count = 15 * 2 ^ 60 + g) := Iff.rfl

theorem sticky_step {w w2 : World} (hs : Sticky w) (h : Step false w w2) :
    Sticky w2 := by
  obtain ⟨hg, hshape⟩ := hs
  have hb : w.ref.ref_count < 2 ^ 64 := by omega
  cases h with
  | acquire r2 h =>
    rcases try_acquire_internal_inv _ _ _ h with ⟨ho, _, _⟩ | ⟨_, hd, _, rfl⟩
    · exact absurd ho (by simp)
    · rw [load_flags_def, is_rundown_eq_false_iff _ hb] at hd
      exact absurd hd (by omega)
  | release r2 hg2 h =>
    obtain ⟨hne, hrc, _⟩ := release_inv _ _ h
    rw [sticky_mk]
    exact ⟨by omega, by omega⟩
  | drain =>
    rw [sticky_mk, rundown_commit_def, load_flags_def, set_rundown_to_flags _ hb]
    simp only [ref_count_mk]
    exact ⟨hg, by omega⟩
  | create hc he =>
    rw [sticky_mk]
    simp only [ref_count_mk]
    exact ⟨hg, hshape⟩
  | reinit r2 hra h =>
    exact absurd hra (by simp)

theorem sticky_rtg {w w2 : World} (hs : Sticky w)
    (h : Relation.ReflTransGen (Step false) w w2) : Sticky w2 := by
  induction h with
  | refl => exact hs
  | tail _ hbc ih => exact sticky_step ih hbc

theorem sticky_rundown {w : World} (hs : Sticky w) :
    (w.ref.load_flags).is_rundown_in_progress = true := by
  rw [load_flags_def, hs.2, is_rundown_iff _ (by omega)]
  omega

/-- C2 (amended): under the protocol invariant (which the object keeps as
long as fewer than 2 ^ 60 guards are ever outstanding, the proviso forced
by the silent count-field overflow of claim C6), after wait_for_rundown
returns the state word has draining true and active_count 0, the next
try_acquire returns RundownInProgress leaving the word unchanged, and
draining stays set along every step sequence that does not run re_init. -/
theorem wait_for_rundown_postcondition (w : World) (hI : InvB w)
    (r2 : RundownRef) (h : w.ref.wait_for_rundown = some r2) :
    (r2.load_flags).is_rundown_in_progress = true
    ∧ (r2.load_flags).is_ref_zero = true
    ∧ r2.try_acquire_internal
        = some (r2, Except.error RundownError.RundownInProgress)
    ∧ ∀ w2 : World, Relation.ReflTransGen (Step false) ⟨r2, w.guards⟩ w2 →
        (w2.ref.load_flags).is_rundown_in_progress = true := by
  obtain ⟨hg0, rfl⟩ := wait_some_of_invB w hI r2 h
  refine ⟨(by decide : (to_flags (15 * 2 ^ 60)).is_rundown_in_progress = true),
    (by decide : (to_flags (15 * 2 ^ 60)).is_ref_zero = true),
    try_acquire_internal_err (15 * 2 ^ 60) _ (by decide), ?_⟩
  intro w2 hchain
  refine sticky_rundown (sticky_rtg ?_ hchain)
  rw [hg0, sticky_mk]
  simp only [ref_count_mk]
  exact ⟨by decide, by omega⟩

/-- C2 witness: from the fresh drained scenario, the returned word has the
flag set and count zero. -/
theorem wait_for_rundown_postcondition_witness :
    (to_flags (15 * 2 ^ 60)).is_rundown_in_progress = true
    ∧ (to_flags (15 * 2 ^ 60)).is_ref_zero = true := by
  have h := wait_for_rundown_postcondition ⟨⟨0, none⟩, 0⟩ (by decide)
    ⟨15 * 2 ^ 60, none⟩ (by decide)
  exact ⟨h.1, h.2.1⟩

/-- C8 (amended): under the protocol invariant (same proviso as C2),
wait_for_rundown is idempotent: once a call has returned, every further
call returns immediately with the state unchanged, the word staying at
draining true with active_count 0. -/
theorem wait_for_rundown_idempotent (w : World) (hI : InvB w)
    (r2 : RundownRef) (h : w.ref.wait_for_rundown = some r2) :
    r2.wait_for_rundown = some r2
    ∧ (r2.load_flags).is_rundown_in_progress = true
    ∧ (r2.load_flags).is_ref_zero = true := by
  obtain ⟨hg0, rfl⟩ := wait_some_of_invB w hI r2 h
  refine ⟨?_, (by decide : (to_flags (15 * 2 ^ 60)).is_rundown_in_progress = true),
    (by decide : (to_flags (15 * 2 ^ 60)).is_ref_zero = true)⟩
  have hc : RundownRef.rundown_commit ⟨15 * 2 ^ 60, w.ref.event⟩
      = ⟨15 * 2 ^ 60, w.ref.event⟩ := by
    rw [rundown_commit_eq, set_rundown_to_flags _ (by decide),
      if_pos (by decide : (to_flags (15 * 2 ^ 60)).is_ref_zero = true)]
    have hm : 15 * 2 ^ 60 + 15 * 2 ^ 60 % 2 ^ 60 = 15 * 2 ^ 60 := by norm_num
    rw [hm]
  unfold RundownRef.wait_for_rundown
  rw [hc, load_flags_mk,
    if_pos (by decide : (to_flags (15 * 2 ^ 60)).is_ref_zero = true)]

/-- C8 witness: on an already-drained object a further wait_for_rundown
returns immediately leaving the word unchanged. -/
theorem wait_for_rundown_idempotent_witness :
    RundownRef.wait_for_rundown ⟨15 * 2 ^ 60, none⟩ = some ⟨15 * 2 ^ 60, none⟩ := by
  have h := wait_for_rundown_idempotent ⟨⟨15 * 2 ^ 60, none⟩, 0⟩ (by decide)
    ⟨15 * 2 ^ 60, none⟩ (by decide)
  exact h.1

/-! ### A reachable corrupted run

Because add_ref never faults below the full 64-bit word (claim C6), a run
with 15 * 2 ^ 60 successful acquisitions walks the count field through the
flag nibble.  Draining such an object signals the event after 2 ^ 60 - 1
releases while an enormous number of guards is still outstanding; one more
guard drop then clears the flag nibble by borrowing, leaving a set event
next to a huge count.  Every step below is guard-justified: releases never
outnumber the acquisitions. -/

theorem reach_acquires : ∀ n : Nat, n ≤ 15 * 2 ^ 60 - 1 →
    Reachable ⟨⟨n, none⟩, n⟩ := by
  intro n
  induction n with
  | zero => intro _; exact Reachable.init
  | succ k ih =>
    intro hk
    have prev := ih (by omega)
    have hd : (to_flags k).is_rundown_in_progress = false :=
      (is_rundown_eq_false_iff k (by omega)).mpr (by omega)
    exact Reachable.step prev
      (Step.acquire ⟨⟨k, none⟩, k⟩ ⟨k + 1, none⟩
        (try_acquire_internal_ok k none hd (by omega)))

theorem reach_top :
    Reachable ⟨⟨2 ^ 64 - 1, some EventState.Unset⟩, 15 * 2 ^ 60 - 1⟩ := by
  have prev := reach_acquires (15 * 2 ^ 60 - 1) le_rfl
  have h := Reachable.step prev
    (Step.drain ⟨⟨15 * 2 ^ 60 - 1, none⟩, 15 * 2 ^ 60 - 1⟩)
  have e : RundownRef.rundown_commit ⟨15 * 2 ^ 60 - 1, none⟩
      = ⟨2 ^ 64 - 1, some EventState.Unset⟩ := by decide
  simp only [World.ref_mk, World.guards_mk] at h
  rw [e] at h
  exact h

theorem reach_releases : ∀ k : Nat, k ≤ 2 ^ 60 - 2 →
    Reachable ⟨⟨2 ^ 64 - 1 - k, some EventState.Unset⟩, 15 * 2 ^ 60 - 1 - k⟩ := by
  intro k
  induction k with
  | zero => intro _; exact reach_top
  | succ j ih =>
    intro hk
    have prev := ih (by omega)
    have hrel : RundownRef.release ⟨2 ^ 64 - 1 - j, some EventState.Unset⟩
        = some ⟨2 ^ 64 - 1 - (j + 1), some EventState.Unset⟩ := by
      rw [release_eq _ _ (by omega)]
      have hA : (to_flags (2 ^ 64 - 1 - j - 1)).is_ref_zero = false :=
        (is_ref_zero_eq_false_iff _).mpr (by omega)
      rw [hA, Bool.false_and, if_neg (by exact Bool.false_ne_true)]
      simp only [Option.some.injEq, RundownRef.mk.injEq]
      exact ⟨by omega, trivial⟩
    have h := Reachable.step prev
      (Step.release ⟨⟨2 ^ 64 - 1 - j, some EventState.Unset⟩, 15 * 2 ^ 60 - 1 - j⟩
        ⟨2 ^ 64 - 1 - (j + 1), some EventState.Unset⟩
        (by simp only [World.guards_mk]; omega) hrel)
    simp only [World.guards_mk] at h
    have e : 15 * 2 ^ 60 - 1 - j - 1 = 15 * 2 ^ 60 - 1 - (j + 1) := by omega
    rw [e] at h
    exact h

theorem reach_set : Reachable ⟨⟨15 * 2 ^ 60, some EventState.Set⟩, 14 * 2 ^ 60⟩ := by
  have prev := reach_releases (2 ^ 60 - 2) le_rfl
  have e1 : 2 ^ 64 - 1 - (2 ^ 60 - 2) = 15 * 2 ^ 60 + 1 := by norm_num
  have e2 : 15 * 2 ^ 60 - 1 - (2 ^ 60 - 2) = 14 * 2 ^ 60 + 1 := by norm_num
  rw [e1, e2] at prev
  have h := Reachable.step prev
    (Step.release ⟨⟨15 * 2 ^ 60 + 1, some EventState.Unset⟩, 14 * 2 ^ 60 + 1⟩
      ⟨15 * 2 ^ 60, some EventState.Set⟩
      (by simp only [World.guards_mk]; omega) (by decide))
  simp only [World.guards_mk] at h
  have e3 : 14 * 2 ^ 60 + 1 - 1 = 14 * 2 ^ 60 := by omega
  rw [e3] at h
  exact h

/-- C3 counterexample: at the reachable state holding the drained word
15 * 2 ^ 60 while 14 * 2 ^ 60 guards are still outstanding, a guard drop
runs release on a word whose count field is already 0: the decrement
borrows from the flag nibble, taking active_count from 0 to 2 ^ 60 - 1
instead of decrementing it by exactly one, and clearing the draining
flag. -/
theorem release_decrement_claim_fails :
    Reachable ⟨⟨15 * 2 ^ 60, some EventState.Set⟩, 14 * 2 ^ 60⟩
    ∧ (to_flags (15 * 2 ^ 60)).get_ref = 0
    ∧ RundownRef.release ⟨15 * 2 ^ 60, some EventState.Set⟩
        = some ⟨15 * 2 ^ 60 - 1, some EventState.Set⟩
    ∧ (to_flags (15 * 2 ^ 60 - 1)).get_ref = 2 ^ 60 - 1
    ∧ (to_flags (15 * 2 ^ 60 - 1)).is_rundown_in_progress = false :=
  ⟨reach_set, by decide, by decide, by decide, by decide⟩

theorem reach_violation :
    Reachable ⟨⟨15 * 2 ^ 60 - 1, some EventState.Set⟩, 14 * 2 ^ 60 - 1⟩ := by
  have h := Reachable.step reach_set
    (Step.release ⟨⟨15 * 2 ^ 60, some EventState.Set⟩, 14 * 2 ^ 60⟩
      ⟨15 * 2 ^ 60 - 1, some EventState.Set⟩
      (by simp only [World.guards_mk]; omega) (by decide))
  simp only [World.guards_mk] at h
  exact h

/-- C2 counterexample: at a reachable state (guards still outstanding, the
event set by an earlier completed drain, the flag nibble cleared again by a
borrowing decrement), wait_for_rundown returns with the draining flag set
but an active_count of 2 ^ 60 - 1, not 0. -/
theorem wait_postcondition_claim_fails :
    Reachable ⟨⟨15 * 2 ^ 60 - 1, some EventState.Set⟩, 14 * 2 ^ 60 - 1⟩
    ∧ RundownRef.wait_for_rundown ⟨15 * 2 ^ 60 - 1, some EventState.Set⟩
        = some ⟨2 ^ 64 - 1, some EventState.Set⟩
    ∧ (to_flags (2 ^ 64 - 1)).is_rundown_in_progress = true
    ∧ (to_flags (2 ^ 64 - 1)).is_ref_zero = false :=
  ⟨reach_violation, by decide, by decide, by decide⟩

/-- C8 counterexample: from the same reachable state, a first
wait_for_rundown returns and a second immediately returns the unchanged
word, but that word does not have active_count 0 as the claim asserts. -/
theorem wait_idempotent_claim_fails :
    Reachable ⟨⟨15 * 2 ^ 60 - 1, some EventState.Set⟩, 14 * 2 ^ 60 - 1⟩
    ∧ RundownRef.wait_for_rundown ⟨15 * 2 ^ 60 - 1, some EventState.Set⟩
        = some ⟨2 ^ 64 - 1, some EventState.Set⟩
    ∧ RundownRef.wait_for_rundown ⟨2 ^ 64 - 1, some EventState.Set⟩
        = some ⟨2 ^ 64 - 1, some EventState.Set⟩
    ∧ (to_flags (2 ^ 64 - 1)).is_ref_zero = false :=
  ⟨reach_violation, by decide, by decide, by decide⟩

end Rundown
